import Mathlib

/-!
Formal model of the `switchboardd` repository: a shallow embedding of
`src/switchboard-cli/src/main.rs` (the CLI issuing RPC calls against the
mainchain, the zcash sidechain and the ethereum sidechain) and
`src/switchboardd/src/main.rs` (the daemon supervisor), together with
proofs of the behavioural properties of amount conversion, RPC call
shapes, balance computation and lifecycle ordering.

Pure decision logic is translated directly from the Rust source; the
parts of the repository that live in the `switchboard` library crate
(not present under `src/`) are modelled from the specification and each
such definition says so in its doc comment.
-/

namespace Switchboard

/-- The three chains, as in the `Chain` enum of `switchboard-cli/src/main.rs`. -/
inductive Chain
  | main
  | zcash
  | ethereum
deriving DecidableEq

/-- The two sidechains, as in the `Sidechain` enum of `switchboard-cli/src/main.rs`. -/
inductive Sidechain
  | zcash
  | ethereum
deriving DecidableEq

/-- `Sidechain::chain` from `switchboard-cli/src/main.rs`. -/
def Sidechain.chain : Sidechain → Chain
  | .zcash => .zcash
  | .ethereum => .ethereum

/-- `Sidechain::number` from `switchboard-cli/src/main.rs`: the fixed slot
index of each sidechain, a literal match with no runtime derivation. -/
def Sidechain.number : Sidechain → Nat
  | .zcash => 0
  | .ethereum => 1

/-- JSON-compatible values as they appear in the CLI's RPC parameter lists.
`amountBtc s` stands for the serialization of `AmountBtc` wrapping an amount
of `s` satoshis (the wire form produced by the repository's `amount` module);
`u256 n` stands for the serialization of a `web3::types::U256` with value `n`. -/
inductive Json
  | null
  | bool (b : Bool)
  | num (n : Nat)
  | str (s : String)
  | arr (elems : List Json)
  | amountBtc (sats : Nat)
  | u256 (n : Nat)

/-- One outbound RPC call: the chain client it is issued on, the method
name, and the ordered parameter list. -/
structure Call where
  target : Chain
  method : String
  params : List Json

/-- Satoshis per bitcoin: the scale between the smallest unit and the major
unit of the decimal representation. -/
def satsPerBtc : Nat := 100000000

/-- The default fee/amount used by `Generate`, `Deposit`, `Withdraw` and
`Refund` when the caller omits one: `bitcoin::Amount::from_btc(0.0001)`,
i.e. 0.0001 of the major unit = 10000 satoshis. -/
def defaultFeeSats : Nat := 10000

/-- Is `c` one of the ten ASCII digits? -/
def isDigitChar (c : Char) : Bool := 48 ≤ c.toNat && c.toNat ≤ 57

/-- The numeric value of an ASCII digit. -/
def digitVal (c : Char) : Nat := c.toNat - 48

/-- One step of decimal accumulation. -/
def digitStep (acc : Nat) (c : Char) : Nat := 10 * acc + digitVal c

/-- The value denoted by a most-significant-first digit string. -/
def digitsToNat (l : List Char) : Nat := l.foldl digitStep 0

/-- `Commands::Generate` from `switchboard-cli/src/main.rs`: a `generate`
call on the zcash client with the block count and the amount (defaulted
when absent). -/
def generateCalls (number : Nat) (amount : Option Nat) : List Call :=
  let amount := amount.getD defaultFeeSats
  [{ target := .zcash, method := "generate", params := [.num number, .amountBtc amount] }]

/-- `Commands::Zcash` / `Commands::Main` parameter handling from
`switchboard-cli/src/main.rs`: `params.iter().map(|param| json!(param))`
iterates over the `Option`, so the whole `Vec<String>` (when present) is
serialized as a single JSON array of strings. -/
def passthroughParams (params : Option (List String)) : List Json :=
  params.toList.map fun ps => Json.arr (ps.map Json.str)

/-- `Commands::Zcash` from `switchboard-cli/src/main.rs`. -/
def zcashCommand (method : String) (params : Option (List String)) : Call :=
  { target := .zcash, method := method, params := passthroughParams params }

/-- `Commands::Main` from `switchboard-cli/src/main.rs`. -/
def mainCommand (method : String) (params : Option (List String)) : Call :=
  { target := .main, method := method, params := passthroughParams params }

/-- Modelled from the spec: the raw pass-through string-parameter coercion
described in section 4.2 ("each parameter is opportunistically reinterpreted
as a JSON scalar (number, boolean, null) when it parses as one, and falls
back to a string otherwise"). Stated here only to compare the specified
behaviour with what the source code does. -/
def specCoerceParam (s : String) : Json :=
  if s = "null" then .null
  else if s = "true" then .bool true
  else if s = "false" then .bool false
  else if !s.data.isEmpty && s.data.all isDigitChar then .num (digitsToNat s.data)
  else .str s

/-- The `eth_accounts` query issued through `web3.eth().accounts()`. -/
def ethAccountsCall : Call := { target := .ethereum, method := "eth_accounts", params := [] }

/-- The `getnewaddress` query issued on the zcash client. -/
def getnewaddressCall : Call := { target := .zcash, method := "getnewaddress", params := [] }

/-- Modelled from the spec: `format_deposit_address` lives in the
`switchboard` library crate, which is not under `src/`; the spec says the
encoding "embeds the sidechain's slot index (so the mainchain node can
route the deposit)". We embed the slot index's decimal rendering between
fixed markers, around the base address. -/
def format_deposit_address (n : Nat) (address : String) : String :=
  "s" ++ Nat.repr n ++ "_" ++ address ++ "_"

/-- `Commands::Deposit` from `switchboard-cli/src/main.rs`. The external
responses the code consumes are passed in as arguments: `zcashNewAddress`
is the result of `getnewaddress`, `ethAccounts` the hex-encoded account
list returned by `web3.eth().accounts()`. Returns the calls issued, or the
error raised when no ethereum account exists. -/
def depositCalls (sc : Sidechain) (amount : Nat) (fee : Option Nat)
    (zcashNewAddress : String) (ethAccounts : List String) : Except String (List Call) :=
  let fee := fee.getD defaultFeeSats
  let addrResult : Except String (List Call × String) :=
    match sc with
    | .zcash => .ok ([getnewaddressCall], zcashNewAddress)
    | .ethereum =>
      match ethAccounts.head? with
      | none => .error "No available Ethereum addresses"
      | some account => .ok ([ethAccountsCall], "0x" ++ account)
  addrResult.map fun (pre, address) =>
    let address := format_deposit_address sc.number address
    pre ++ [{ target := .main, method := "createsidechaindeposit",
              params := [.num sc.number, .str address, .amountBtc amount, .amountBtc fee] }]

/-- `Commands::Withdraw` from `switchboard-cli/src/main.rs`. For zcash, a
`withdraw` call with the two `AmountBtc` parameters (amount, fee); for
ethereum, an `eth_withdraw` transport call with the `0x`-prefixed first
account and the amount and fee converted to satoshis as `U256` values. -/
def withdrawCalls (sc : Sidechain) (amount : Nat) (fee : Option Nat)
    (ethAccounts : List String) : Except String (List Call) :=
  let fee := fee.getD defaultFeeSats
  match sc with
  | .zcash =>
    .ok [{ target := .zcash, method := "withdraw", params := [.amountBtc amount, .amountBtc fee] }]
  | .ethereum =>
    match ethAccounts.head? with
    | none => .error "No available Ethereum addresses"
    | some account =>
      .ok [ethAccountsCall,
           { target := .ethereum, method := "eth_withdraw",
             params := [.str ("0x" ++ account), .u256 amount, .u256 fee] }]

/-- How a refund request ends: either the refund RPC was issued, or the
operation is unsupported and the user is pointed at the chain's console. -/
inductive RefundOutcome
  | refunded
  | unsupportedOperation (guidance : String)

/-- The guidance printed by `Commands::Refund` for ethereum. -/
def refundGuidance : String :=
  "ATTENTION: Automatic refunds are not supported for ethereum, use geth-console to make a refund"

/-- `Commands::Refund` from `switchboard-cli/src/main.rs`: for zcash a
`refund` call with (amount, fee); for ethereum no call at all — the branch
prints the guidance message and returns `Ok(())` early. The function is
total: the ethereum branch is a recognized outcome, not an error. -/
def refundProgram (sc : Sidechain) (amount : Nat) (fee : Option Nat) :
    List Call × RefundOutcome :=
  let fee := fee.getD defaultFeeSats
  match sc with
  | .zcash =>
    ([{ target := .zcash, method := "refund", params := [.amountBtc amount, .amountBtc fee] }],
     .refunded)
  | .ethereum => ([], .unsupportedOperation refundGuidance)

/-- The scale factor between ethereum's native unit and satoshis, the
`SATOSHI` constant inside `Commands::Getbalances`. -/
def SATOSHI : Nat := 10000000000

/-- One more than `U256::MAX`. -/
def u256Bound : Nat := 2 ^ 256

/-- One more than `u64::MAX`. -/
def u64Bound : Nat := 2 ^ 64

/-- `U256` addition as used by `balance += ...`: panics on overflow, which
the model renders as `none`. -/
def u256Add (a b : Nat) : Option Nat :=
  if a + b < u256Bound then some (a + b) else none

/-- The balance accumulation loop of `Commands::Getbalances`: starting from
`U256::zero()`, add every account balance in turn. -/
def sumU256 (balances : List Nat) : Option Nat :=
  balances.foldl (fun acc b => acc.bind fun a => u256Add a b) (some 0)

/-- `U256::as_u64`: panics (modelled as `none`) when the value does not fit
in 64 bits. -/
def asU64 (n : Nat) : Option Nat :=
  if n < u64Bound then some n else none

/-- The ethereum arm of `Commands::Getbalances`: sum the balance of every
account the node controls, floor-divide the sum once by `SATOSHI`, and
convert with `as_u64`. -/
def ethereumBalanceSats (balances : List Nat) : Option Nat :=
  (sumU256 balances).bind fun s => asU64 (s / SATOSHI)

/-- Observable steps of the supervisor in `switchboardd/src/main.rs`, in
the order the source performs them. -/
inductive Event
  | downloadBinaries
  | ethereumRegtestSetup
  | zcashFetchParams
  | spawnMain
  | spawnZcash
  | spawnEthereum
  | settleDelay
  | activateSidechains
  | serverRun
  | serverDrained
  | clientStop
  | waitZcash
  | waitMain
  | waitEthereum
deriving DecidableEq, BEq

/-- The provisioning block of `switchboardd/src/main.rs`: when
`datadir/bin` is absent, download the binaries and (on regtest) run the
one-time ethereum regtest setup; this is also what sets `first_launch`. -/
def provisioningEvents (binPresent regtest : Bool) : List Event :=
  if binPresent then []
  else .downloadBinaries :: (if regtest then [.ethereumRegtestSetup] else [])

/-- The zcash parameter fetch: performed only when `~/.zcash-params` is
absent. -/
def paramsEvents (zcashParamsPresent : Bool) : List Event :=
  if zcashParamsPresent then [] else [.zcashFetchParams]

/-- Modelled from the spec: `spawn_daemons` lives in the `switchboard`
library crate's launcher, which is not under `src/`; section 4.5 says it
spawns the Main, SidechainA and SidechainB daemon processes, yielding the
three handles destructured in `switchboardd/src/main.rs`. -/
def spawnEvents : List Event := [.spawnMain, .spawnZcash, .spawnEthereum]

/-- `first_launch` in `switchboardd/src/main.rs`: true exactly when the
binaries were just provisioned in this run. -/
def firstLaunch (binPresent : Bool) : Bool := !binPresent

/-- The activation step: only on regtest and only on first launch. -/
def activationEvents (binPresent regtest : Bool) : List Event :=
  if regtest && firstLaunch binPresent then [.activateSidechains] else []

/-- The supervisor's straight-line control flow from startup through
`client.stop()`, translated step by step from `switchboardd/src/main.rs`:
provisioning, parameter fetch, daemon spawn, the one-second settle delay,
conditional activation, then `run_server` (which returns only after the
server has drained and stopped) followed by `client.stop()`. -/
def bootEvents (binPresent zcashParamsPresent regtest : Bool) : List Event :=
  provisioningEvents binPresent regtest ++ paramsEvents zcashParamsPresent
    ++ spawnEvents ++ [.settleDelay] ++ activationEvents binPresent regtest
    ++ [.serverRun, .serverDrained, .clientStop]

/-- The three `wait()` calls at the end of `switchboardd/src/main.rs`, in
source order (zcash, main, ethereum); each is followed by `?`, so a failed
wait aborts `main` with that error before the later waits run. -/
def waitEvents (wz wm we : Except String Unit) : List Event × Except String Unit :=
  match wz with
  | .error e => ([.waitZcash], .error e)
  | .ok _ =>
    match wm with
    | .error e => ([.waitZcash, .waitMain], .error e)
    | .ok _ =>
      match we with
      | .error e => ([.waitZcash, .waitMain, .waitEthereum], .error e)
      | .ok _ => ([.waitZcash, .waitMain, .waitEthereum], .ok ())

/-- One whole run of the supervisor `main`: the boot/serve/stop trace
followed by the three daemon waits, with the result of `main` itself
(`Ok(())`, or the first wait error propagated by `?`). -/
def runSupervisor (binPresent zcashParamsPresent regtest : Bool)
    (wz wm we : Except String Unit) : List Event × Except String Unit :=
  (bootEvents binPresent zcashParamsPresent regtest ++ (waitEvents wz wm we).1,
   (waitEvents wz wm we).2)

/-- Recognizes the daemon-spawn events. -/
def isSpawnEvent : Event → Bool
  | .spawnMain => true
  | .spawnZcash => true
  | .spawnEthereum => true
  | _ => false

/-!
## Amount decimal codec

The repository's `amount` module (`mod amount` in `switchboard-cli`) and
the `bitcoin::Amount` decimal parsing/rendering it relies on are not under
`src/`; the codec below is modelled from the spec ("integer count of the
smallest unit wrapped for serialization as the chain-native decimal
string", "no floating-point arithmetic is used for amount conversion"),
following the decimal format accepted by `btc_amount_parser` (a whole
part, optionally a dot and at most eight fractional digits) and the
eight-decimal rendering of the native form. All arithmetic is on `Nat`.
-/

/-- The ASCII digit for a value below ten (values ten and above are
clamped; they never arise). -/
def digitChar : Nat → Char
  | 0 => '0'
  | 1 => '1'
  | 2 => '2'
  | 3 => '3'
  | 4 => '4'
  | 5 => '5'
  | 6 => '6'
  | 7 => '7'
  | 8 => '8'
  | _ => '9'

/-- Render `n` in decimal, most significant digit first, by fuelled
division by ten; `fuel` bounds the number of digits produced. -/
def natCharsAux : Nat → Nat → List Char
  | 0, _ => []
  | fuel + 1, n => if n = 0 then [] else natCharsAux fuel (n / 10) ++ [digitChar (n % 10)]

/-- Decimal rendering of a natural number; 32 digits of fuel covers every
value below `10 ^ 32`, far beyond the 64-bit amounts in scope. -/
def natToChars (n : Nat) : List Char :=
  if n = 0 then ['0'] else natCharsAux 32 n

/-- Left-pad a digit string with zeros to eight characters. -/
def padTo8 (l : List Char) : List Char := List.replicate (8 - l.length) '0' ++ l

/-- `toNative`: the chain-native decimal string of an amount of `n`
satoshis — the whole-bitcoin part, a dot, and exactly eight fractional
digits. -/
def toNative (n : Nat) : String :=
  ⟨natToChars (n / satsPerBtc) ++ '.' :: padTo8 (natToChars (n % satsPerBtc))⟩

/-- Split a character list at the first dot: the characters before it, and
(when a dot occurs) the characters after it. -/
def breakAtDot : List Char → List Char × Option (List Char)
  | [] => ([], none)
  | c :: cs =>
    if c = '.' then ([], some cs)
    else
      let r := breakAtDot cs
      (c :: r.1, r.2)

/-- `fromNative`: parse a decimal amount string into satoshis. The whole
part must be nonempty and all digits; a fractional part, when present,
must be nonempty, all digits, and at most eight digits long. -/
def fromNative (s : String) : Option Nat :=
  match breakAtDot s.data with
  | (w, none) =>
    if !w.isEmpty && w.all isDigitChar then some (digitsToNat w * satsPerBtc) else none
  | (w, some f) =>
    if !w.isEmpty && w.all isDigitChar && !f.isEmpty && f.all isDigitChar
        && decide (f.length ≤ 8) then
      some (digitsToNat w * satsPerBtc + digitsToNat f * 10 ^ (8 - f.length))
    else none

/-- The event trace of a supervisor run in which all three daemon waits
succeed. -/
def successTrace (bp zp rt : Bool) : List Event :=
  (runSupervisor bp zp rt (.ok ()) (.ok ()) (.ok ())).1

/-!
## Helper lemmas for the decimal codec
-/

theorem digitVal_digitChar {d : Nat} (h : d < 10) : digitVal (digitChar d) = d := by
  interval_cases d <;> rfl

theorem isDigitChar_digitChar (d : Nat) : isDigitChar (digitChar d) = true := by
  rcases d with _ | _ | _ | _ | _ | _ | _ | _ | _ | d <;> rfl

theorem foldl_digitStep (l : List Char) (a : Nat) :
    l.foldl digitStep a = a * 10 ^ l.length + digitsToNat l := by
  induction l generalizing a with
  | nil => simp [digitsToNat]
  | cons c t ih =>
    have h1 : (c :: t).foldl digitStep a = t.foldl digitStep (digitStep a c) := rfl
    have h2 : digitsToNat (c :: t) = t.foldl digitStep (digitStep 0 c) := rfl
    rw [h1, ih, h2, ih, digitStep, digitStep, List.length_cons]
    ring

theorem digitsToNat_append (l1 l2 : List Char) :
    digitsToNat (l1 ++ l2) = digitsToNat l1 * 10 ^ l2.length + digitsToNat l2 := by
  have h1 : digitsToNat (l1 ++ l2) = (l1 ++ l2).foldl digitStep 0 := rfl
  rw [h1, List.foldl_append, foldl_digitStep]
  rfl

theorem digitsToNat_singleton (c : Char) : digitsToNat [c] = digitVal c := by
  simp [digitsToNat, digitStep]

theorem natCharsAux_val : ∀ (fuel n : Nat), n < 10 ^ fuel →
    digitsToNat (natCharsAux fuel n) = n := by
  intro fuel
  induction fuel with
  | zero => intro n h; interval_cases n; rfl
  | succ fuel ih =>
    intro n h
    by_cases hn : n = 0
    · subst hn; simp [natCharsAux, digitsToNat]
    · rw [natCharsAux, if_neg hn, digitsToNat_append, digitsToNat_singleton,
        digitVal_digitChar (Nat.mod_lt n (by omega))]
      have hdiv : n / 10 < 10 ^ fuel := by
        rw [Nat.div_lt_iff_lt_mul (by omega)]
        calc n < 10 ^ (fuel + 1) := h
        _ = 10 ^ fuel * 10 := by ring
      rw [ih (n / 10) hdiv]
      simp
      omega

theorem natCharsAux_all (fuel n : Nat) :
    (natCharsAux fuel n).all isDigitChar = true := by
  induction fuel generalizing n with
  | zero => rfl
  | succ fuel ih =>
    by_cases hn : n = 0
    · subst hn; rfl
    · rw [natCharsAux, if_neg hn, List.all_append, ih]
      simp [isDigitChar_digitChar]

theorem natCharsAux_len : ∀ (fuel n k : Nat), n < 10 ^ k →
    (natCharsAux fuel n).length ≤ k := by
  intro fuel
  induction fuel with
  | zero => intro n k _; simp [natCharsAux]
  | succ fuel ih =>
    intro n k h
    by_cases hn : n = 0
    · subst hn; simp [natCharsAux]
    · rw [natCharsAux, if_neg hn]
      have hk : k ≠ 0 := by
        intro hk0
        subst hk0
        simp at h
        omega
      obtain ⟨k', rfl⟩ : ∃ k', k = k' + 1 := ⟨k - 1, by omega⟩
      have hdiv : n / 10 < 10 ^ k' := by
        rw [Nat.div_lt_iff_lt_mul (by omega)]
        calc n < 10 ^ (k' + 1) := h
        _ = 10 ^ k' * 10 := by ring
      have := ih (n / 10) k' hdiv
      simp only [List.length_append, List.length_singleton]
      omega

theorem natToChars_val {n : Nat} (h : n < 10 ^ 32) : digitsToNat (natToChars n) = n := by
  by_cases hn : n = 0
  · subst hn; rfl
  · rw [natToChars, if_neg hn]
    exact natCharsAux_val 32 n h

theorem natToChars_all (n : Nat) : (natToChars n).all isDigitChar = true := by
  by_cases hn : n = 0
  · subst hn; rfl
  · rw [natToChars, if_neg hn]
    exact natCharsAux_all 32 n

theorem natToChars_ne_nil (n : Nat) : natToChars n ≠ [] := by
  by_cases hn : n = 0
  · subst hn; simp [natToChars]
  · rw [natToChars, if_neg hn]
    rcases hf : natCharsAux 32 n with _ | ⟨c, t⟩
    · rw [natCharsAux, if_neg hn] at hf
      exact absurd hf (by simp)
    · simp

theorem natToChars_len {n k : Nat} (h : n < 10 ^ k) (hk : 1 ≤ k) :
    (natToChars n).length ≤ k := by
  by_cases hn : n = 0
  · subst hn; simpa [natToChars] using hk
  · rw [natToChars, if_neg hn]
    exact natCharsAux_len 32 n k h

theorem digitsToNat_replicate_zero (m : Nat) : digitsToNat (List.replicate m '0') = 0 := by
  induction m with
  | zero => rfl
  | succ m ih => exact ih

theorem padTo8_val (l : List Char) : digitsToNat (padTo8 l) = digitsToNat l := by
  rw [padTo8, digitsToNat_append, digitsToNat_replicate_zero]
  ring

theorem padTo8_len {l : List Char} (h : l.length ≤ 8) : (padTo8 l).length = 8 := by
  simp [padTo8]
  omega

theorem padTo8_all {l : List Char} (h : l.all isDigitChar = true) :
    (padTo8 l).all isDigitChar = true := by
  rw [padTo8, List.all_append, h]
  simp [List.all_eq_true, List.mem_replicate]
  exact Or.inr rfl

theorem padTo8_ne_nil {l : List Char} (h : l.length ≤ 8) : (padTo8 l).isEmpty = false := by
  have := padTo8_len h
  rcases hp : padTo8 l with _ | ⟨c, t⟩
  · rw [hp] at this; simp at this
  · rfl

theorem breakAtDot_append (w f : List Char) (hw : w.all isDigitChar = true) :
    breakAtDot (w ++ '.' :: f) = (w, some f) := by
  induction w with
  | nil => rfl
  | cons c t ih =>
    rw [List.all_cons, Bool.and_eq_true] at hw
    have hne : c ≠ '.' := by
      intro hc
      subst hc
      exact absurd hw.1 (by decide)
    simp [breakAtDot, hne, ih hw.2]

/-!
## Claim theorems
-/

/-- Claim C1 (amended): conversion between the internal smallest-unit
integer and the chain-native decimal string is lossless for every value
representable as a 64-bit unsigned integer of smallest units — parsing the
decimal rendering of `n` satoshis yields exactly `n`, with only integer
arithmetic involved. (The string-level round trip `toNative (fromNative s)
= s` holds only for canonical strings; see the counterexample.) -/
theorem amount_value_roundtrip (n : Nat) (h : n < 2 ^ 64) :
    fromNative (toNative n) = some n := by
  have hsats : satsPerBtc = 10 ^ 8 := rfl
  have hwlt : n / satsPerBtc < 10 ^ 32 := by
    have h1 : n / satsPerBtc ≤ n := Nat.div_le_self _ _
    have h2 : (2 : Nat) ^ 64 < 10 ^ 32 := by norm_num
    omega
  have hflt : n % satsPerBtc < 10 ^ 8 := by
    rw [← hsats]
    exact Nat.mod_lt _ (by decide)
  have hw_all : (natToChars (n / satsPerBtc)).all isDigitChar = true := natToChars_all _
  have hw_ne : (natToChars (n / satsPerBtc)).isEmpty = false := by
    rcases hcase : natToChars (n / satsPerBtc) with _ | ⟨c, t⟩
    · exact absurd hcase (natToChars_ne_nil _)
    · rfl
  have hf0_len : (natToChars (n % satsPerBtc)).length ≤ 8 := natToChars_len hflt (by omega)
  have hdata : (toNative n).data
      = natToChars (n / satsPerBtc) ++ '.' :: padTo8 (natToChars (n % satsPerBtc)) := rfl
  rw [fromNative, hdata, breakAtDot_append _ _ hw_all]
  show (if (!(natToChars (n / satsPerBtc)).isEmpty
        && (natToChars (n / satsPerBtc)).all isDigitChar
        && !(padTo8 (natToChars (n % satsPerBtc))).isEmpty
        && (padTo8 (natToChars (n % satsPerBtc))).all isDigitChar
        && decide ((padTo8 (natToChars (n % satsPerBtc))).length ≤ 8)) = true then
      some (digitsToNat (natToChars (n / satsPerBtc)) * satsPerBtc
        + digitsToNat (padTo8 (natToChars (n % satsPerBtc)))
          * 10 ^ (8 - (padTo8 (natToChars (n % satsPerBtc))).length))
    else none) = some n
  rw [hw_ne, hw_all, padTo8_ne_nil hf0_len, padTo8_all (natToChars_all _), padTo8_len hf0_len]
  simp only [Bool.not_false, Bool.and_self, Bool.and_true, Bool.true_and, decide_True,
    if_true]
  rw [padTo8_val, natToChars_val hwlt, natToChars_val (by omega)]
  norm_num
  rw [Nat.mul_comm]
  exact Nat.div_add_mod n satsPerBtc

/-- Claim C1, witness: the amended round trip evaluated at the concrete
amount 12345 satoshis. -/
theorem amount_value_roundtrip_witness :
    12345 < 2 ^ 64 ∧ fromNative (toNative 12345) = some 12345 :=
  ⟨by decide, amount_value_roundtrip 12345 (by decide)⟩

/-- Claim C1, counterexample: the claim's string-level round trip
`toNative (fromNative s) = s` fails at the valid decimal amount string
"1.0", which parses to one bitcoin of satoshis but re-renders in the
canonical eight-decimal form "1.00000000". -/
theorem amount_string_roundtrip_fails :
    fromNative "1.0" = some satsPerBtc
    ∧ toNative satsPerBtc = "1.00000000"
    ∧ toNative satsPerBtc ≠ "1.0" :=
  ⟨by decide, by decide, by decide⟩

/-- Claim C2: for every amount and fee, `Commands::Refund` on the
account-model sidechain (ethereum) yields the distinguished unsupported
outcome carrying the guidance to use the chain's native console, returns
successfully rather than failing hard (the function is total and this is
its value), and the list of RPC calls it issues is empty. -/
theorem refund_ethereum_unsupported_no_rpc (amount : Nat) (fee : Option Nat) :
    refundProgram .ethereum amount fee = ([], .unsupportedOperation refundGuidance) := rfl

/-- Claim C3: `Commands::Withdraw` passes amount and fee to the underlying
sidechain call as two distinct parameters in the order (amount, fee): for
zcash a native `withdraw` call with exactly the parameters
`[amount, fee]`, and for ethereum an `eth_withdraw` call with exactly
`[account, amount-in-satoshis, fee-in-satoshis]`; in particular the fee is
its own parameter, never folded into a total-amount field. -/
theorem withdraw_amount_fee_distinct_params (amount : Nat) (fee : Option Nat)
    (acct : String) (rest : List String) (accounts : List String) :
    withdrawCalls .zcash amount fee accounts =
      .ok [{ target := .zcash, method := "withdraw",
             params := [.amountBtc amount, .amountBtc (fee.getD defaultFeeSats)] }]
    ∧ withdrawCalls .ethereum amount fee (acct :: rest) =
      .ok [ethAccountsCall,
           { target := .ethereum, method := "eth_withdraw",
             params := [.str ("0x" ++ acct), .u256 amount, .u256 (fee.getD defaultFeeSats)] }] :=
  ⟨rfl, rfl⟩

/-- Claim C4: `Commands::Getbalances` computes the ethereum balance by
summing every controlled account's native-unit balance and floor-dividing
the sum once by the fixed scale factor 10_000_000_000; for the account
balances 3_000_000_000_000 and 7_000_000_000_000 the result is exactly
1000 satoshis, sub-unit remainders silently dropped. -/
theorem getbalances_ethereum_floor_division :
    ethereumBalanceSats [3000000000000, 7000000000000] = some 1000
    ∧ ∀ (balances : List Nat) (s : Nat), sumU256 balances = some s →
        s / SATOSHI < u64Bound → ethereumBalanceSats balances = some (s / SATOSHI) := by
  constructor
  · decide
  · intro balances s hs hlt
    rw [ethereumBalanceSats, hs]
    simp [asU64, hlt]

/-- Claim C4, witness: the general floor-division statement applied at the
concrete account balances from the claim. -/
theorem getbalances_ethereum_floor_division_witness :
    sumU256 [3000000000000, 7000000000000] = some 10000000000000
    ∧ 10000000000000 / SATOSHI < u64Bound
    ∧ ethereumBalanceSats [3000000000000, 7000000000000] = some (10000000000000 / SATOSHI) :=
  ⟨by decide, by decide,
    getbalances_ethereum_floor_division.2 _ 10000000000000 (by decide) (by decide)⟩

/-- Claim C5: each sidechain maps to a fixed slot index (zcash = 0,
ethereum = 1); every deposit issues the mainchain `createsidechaindeposit`
call with parameters (slot index, encoded address, amount, fee) in that
order, and the encoded deposit address embeds the slot index's literal
decimal rendering. -/
theorem deposit_slot_index_literal :
    Sidechain.number .zcash = 0 ∧ Sidechain.number .ethereum = 1
    ∧ (∀ (amount : Nat) (fee : Option Nat) (zaddr : String) (accs : List String),
        depositCalls .zcash amount fee zaddr accs =
          .ok [getnewaddressCall,
               { target := .main, method := "createsidechaindeposit",
                 params := [.num 0, .str (format_deposit_address 0 zaddr),
                            .amountBtc amount, .amountBtc (fee.getD defaultFeeSats)] }])
    ∧ (∀ (amount : Nat) (fee : Option Nat) (zaddr acct : String) (rest : List String),
        depositCalls .ethereum amount fee zaddr (acct :: rest) =
          .ok [ethAccountsCall,
               { target := .main, method := "createsidechaindeposit",
                 params := [.num 1, .str (format_deposit_address 1 ("0x" ++ acct)),
                            .amountBtc amount, .amountBtc (fee.getD defaultFeeSats)] }])
    ∧ (∀ (sc : Sidechain) (addr : String),
        (format_deposit_address sc.number addr).data =
          's' :: (Nat.repr sc.number).data ++ '_' :: addr.data ++ ['_']) :=
  ⟨rfl, rfl, fun _ _ _ _ => rfl, fun _ _ _ _ _ => rfl,
    fun sc addr => by simp [format_deposit_address, String.data_append]⟩

/-- Claim C6: booting with an empty data directory (binaries absent) in
regtest invokes provisioning exactly once, then spawns exactly three
daemon processes, then calls sidechain activation exactly once, in that
order; a subsequent boot with binaries already present performs neither
provisioning nor activation. -/
theorem boot_sequence_provision_spawn_activate (zp rt : Bool) :
    ((bootEvents false zp true).count .downloadBinaries = 1)
    ∧ ((bootEvents false zp true).countP isSpawnEvent = 3)
    ∧ ((bootEvents false zp true).count .activateSidechains = 1)
    ∧ ((bootEvents false zp true).indexOf .downloadBinaries
        < (bootEvents false zp true).indexOf .spawnMain)
    ∧ ((bootEvents false zp true).indexOf .spawnMain
        < (bootEvents false zp true).indexOf .spawnZcash)
    ∧ ((bootEvents false zp true).indexOf .spawnZcash
        < (bootEvents false zp true).indexOf .spawnEthereum)
    ∧ ((bootEvents false zp true).indexOf .spawnEthereum
        < (bootEvents false zp true).indexOf .activateSidechains)
    ∧ ((bootEvents true zp rt).count .downloadBinaries = 0)
    ∧ ((bootEvents true zp rt).count .ethereumRegtestSetup = 0)
    ∧ ((bootEvents true zp rt).count .activateSidechains = 0) := by
  cases zp <;> cases rt <;> exact (by decide)

/-- Claim C7: on the stop signal the gateway server's drain completes
before the client's `stop()` is invoked, the three daemon waits all occur
after `stop()` returns and in the fixed order zcash, main, ethereum; and a
daemon wait that fails makes the supervisor's `main` return that error (a
fatal supervisor-level outcome, never silently ignored). -/
theorem shutdown_drain_stop_wait_order (bp zp rt : Bool) (e : String)
    (wm we : Except String Unit) :
    ((successTrace bp zp rt).indexOf .serverRun < (successTrace bp zp rt).indexOf .serverDrained
    ∧ (successTrace bp zp rt).indexOf .serverDrained < (successTrace bp zp rt).indexOf .clientStop
    ∧ (successTrace bp zp rt).indexOf .clientStop < (successTrace bp zp rt).indexOf .waitZcash
    ∧ (successTrace bp zp rt).indexOf .waitZcash < (successTrace bp zp rt).indexOf .waitMain
    ∧ (successTrace bp zp rt).indexOf .waitMain < (successTrace bp zp rt).indexOf .waitEthereum
    ∧ (successTrace bp zp rt).indexOf .waitEthereum < (successTrace bp zp rt).length)
    ∧ (runSupervisor bp zp rt (.ok ()) (.ok ()) (.ok ())).2 = .ok ()
    ∧ (runSupervisor bp zp rt (.error e) wm we).2 = .error e
    ∧ (runSupervisor bp zp rt (.ok ()) (.error e) we).2 = .error e
    ∧ (runSupervisor bp zp rt (.ok ()) (.ok ()) (.error e)).2 = .error e := by
  refine ⟨?_, rfl, rfl, rfl, rfl⟩
  cases bp <;> cases zp <;> cases rt <;> exact (by decide)

/-- Claim C8, counterexample: the direct-call commands do not reinterpret
string parameters as JSON scalars — the parameter "3" parses as the number
3 under the specified coercion, yet the code passes it inside a JSON array
of strings. -/
theorem passthrough_no_scalar_reinterpretation :
    (zcashCommand "getblockhash" (some ["3"])).params = [Json.arr [Json.str "3"]]
    ∧ specCoerceParam "3" = Json.num 3
    ∧ (zcashCommand "getblockhash" (some ["3"])).params ≠ [specCoerceParam "3"]
    ∧ (mainCommand "getblockhash" (some ["3"])).params ≠ [specCoerceParam "3"] := by
  refine ⟨rfl, rfl, ?_, ?_⟩
  all_goals
    intro h
    rw [show specCoerceParam "3" = Json.num 3 from rfl] at h
    injection h with h1 _
    exact Json.noConfusion h1

/-- Claim C8 (amended): for every raw pass-through call, each string
parameter is passed verbatim — the optional parameter list is serialized
as at most one JSON array of JSON strings, and no parameter is ever
reinterpreted as a number, boolean or null. -/
theorem passthrough_params_verbatim (method : String) (ps : List String) :
    zcashCommand method (some ps)
      = { target := .zcash, method := method, params := [.arr (ps.map .str)] }
    ∧ zcashCommand method none = { target := .zcash, method := method, params := [] }
    ∧ mainCommand method (some ps)
      = { target := .main, method := method, params := [.arr (ps.map .str)] }
    ∧ mainCommand method none = { target := .main, method := method, params := [] } :=
  ⟨rfl, rfl, rfl, rfl⟩

/-- Claim C9: every operation taking an optional fee or amount (generate,
deposit, withdraw, refund) behaves, when it is omitted, exactly as when
called with the fixed default of 10000 satoshis = 0.0001 of the major
unit. -/
theorem default_fee_constant :
    defaultFeeSats * 10000 = satsPerBtc
    ∧ (∀ n, generateCalls n none = generateCalls n (some defaultFeeSats))
    ∧ (∀ (sc : Sidechain) (amount : Nat) (zaddr : String) (accs : List String),
        depositCalls sc amount none zaddr accs
          = depositCalls sc amount (some defaultFeeSats) zaddr accs
        ∧ withdrawCalls sc amount none accs = withdrawCalls sc amount (some defaultFeeSats) accs
        ∧ refundProgram sc amount none = refundProgram sc amount (some defaultFeeSats)) :=
  ⟨rfl, fun _ => rfl, fun _ _ _ _ => ⟨rfl, rfl, rfl⟩⟩

/-- Claim C10: the ethereum balance conversion in `Commands::Getbalances`
is not total — whenever the floor-divided quotient exceeds `u64::MAX`, the
`as_u64` conversion panics (`none` in the model) instead of returning a
value or an error; a single reachable account balance of `10 ^ 30` native
units triggers it. -/
theorem getbalances_as_u64_panics :
    ethereumBalanceSats [10 ^ 30] = none
    ∧ ∀ (balances : List Nat) (s : Nat), sumU256 balances = some s →
        u64Bound ≤ s / SATOSHI → ethereumBalanceSats balances = none := by
  constructor
  · decide
  · intro balances s hs hge
    rw [ethereumBalanceSats, hs]
    simp [asU64, Nat.not_lt.mpr hge]

/-- Claim C10, witness: the panic statement applied at the concrete
account balance `10 ^ 30`. -/
theorem getbalances_as_u64_panics_witness :
    sumU256 [10 ^ 30] = some (10 ^ 30)
    ∧ u64Bound ≤ 10 ^ 30 / SATOSHI
    ∧ ethereumBalanceSats [10 ^ 30] = none :=
  ⟨by decide, by decide, getbalances_as_u64_panics.2 _ (10 ^ 30) (by decide) (by decide)⟩

end Switchboard
